import Mathlib

/-!
Verification of the foodgram backend's core logic: the base-36 short-link
codec (`backend/api/services/short_links.py`), the add/remove relation
mixin (`backend/api/mixins.py`), the subscription endpoint
(`backend/api/views.py`), the shopping-list aggregator
(`backend/api/views.py`), and recipe-ingredient replacement on update
(`backend/api/serializers.py`).
-/

namespace Foodgram

/-! ## Codec (`short_links.py`) -/

/-- The constant `ALPHABET = "0123456789abcdefghijklmnopqrstuvwxyz"`. -/
def ALPHABET : String := "0123456789abcdefghijklmnopqrstuvwxyz"

/-- Lookup `ALPHABET[rem]` for a digit value `rem < 36`. -/
def alphaChar (i : Nat) : Char := ALPHABET.data.getD i '0'

set_option linter.unusedVariables false in
/-- The `while num:` loop of `encode`: base-36 digit values of `num`,
most-significant first (`num, rem = divmod(num, 36)` then
`result = ALPHABET[rem] + result`). -/
def encodeDigits (n : Nat) : List Nat :=
  if h : n = 0 then []
  else encodeDigits (n / 36) ++ [n % 36]
decreasing_by exact Nat.div_lt_self (Nat.pos_of_ne_zero h) (by omega)

/-- Python's `str.zfill(w)`: left-pad with the character `0` to width `w`. -/
def zfill (w : Nat) (s : List Char) : List Char :=
  List.replicate (w - s.length) '0' ++ s

/-- Function `encode(num)` from `short_links.py`: returns `"000"` for `0`, else the
base-36 expansion left-padded to width 3. -/
def encode (num : Nat) : String :=
  if num = 0 then "000"
  else ⟨zfill 3 ((encodeDigits num).map alphaChar)⟩

/-- Python's `ALPHABET.index(char)`: the position of `char` in the alphabet, or
`none` when absent (Python raises `ValueError`). -/
def charIndex (c : Char) : Option Nat :=
  if ALPHABET.data.indexOf c < ALPHABET.data.length
  then some (ALPHABET.data.indexOf c) else none

/-- The `for char in code:` loop of `decode`, accumulating
`result = result * 36 + ALPHABET.index(char)`; `none` models the
`ValueError` raised by `ALPHABET.index` on a foreign character. -/
def decodeAux : List Char → Nat → Option Nat
  | [], acc => some acc
  | c :: cs, acc =>
      match charIndex c with
      | none => none
      | some v => decodeAux cs (acc * 36 + v)

/-- Function `decode(code)` from `short_links.py`. -/
def decode (code : String) : Option Nat :=
  decodeAux code.data 0

/-- Outcome of `redirect_short_link`. -/
inductive RedirectResult
  | found : String → RedirectResult
  | notFound : RedirectResult
deriving DecidableEq

/-- Function `redirect_short_link` from `short_links.py`: decode the code, look the
recipe id up, redirect to `{base_url}/api/recipes/{id}/`; both the decode
`ValueError` and `Recipe.DoesNotExist` fall into the `Http404` branch. -/
def redirect_short_link (recipes : List Nat) (base_url : String)
    (short_code : String) : RedirectResult :=
  match decode short_code with
  | none => .notFound
  | some recipe_id =>
      if recipe_id ∈ recipes then
        .found (base_url ++ "/api/recipes/" ++ toString recipe_id ++ "/")
      else .notFound

/-! ## Codec lemmas -/

theorem charIndex_mem (c : Char) (h : c ∈ ALPHABET.data) :
    charIndex c = some (ALPHABET.data.indexOf c) := by
  have hlt : ALPHABET.data.indexOf c < ALPHABET.data.length :=
    List.indexOf_lt_length.mpr h
  simp only [charIndex, if_pos hlt]

theorem charIndex_not_mem (c : Char) (h : c ∉ ALPHABET.data) :
    charIndex c = none := by
  have he : ALPHABET.data.indexOf c = ALPHABET.data.length :=
    List.indexOf_eq_length.mpr h
  simp only [charIndex, he, lt_irrefl, if_false]

theorem charIndex_alphaChar : ∀ v < 36, charIndex (alphaChar v) = some v := by
  decide

theorem encodeDigits_def (n : Nat) :
    encodeDigits n = if n = 0 then [] else encodeDigits (n / 36) ++ [n % 36] := by
  rw [encodeDigits]
  by_cases h : n = 0 <;> simp [h]

theorem encodeDigits_lt (n : Nat) : ∀ d ∈ encodeDigits n, d < 36 := by
  induction n using Nat.strong_induction_on with
  | _ n ih =>
    rw [encodeDigits_def]
    by_cases h : n = 0
    · simp [h]
    · rw [if_neg h]
      intro d hd
      rcases List.mem_append.mp hd with hd | hd
      · exact ih (n / 36) (Nat.div_lt_self (Nat.pos_of_ne_zero h) (by omega)) d hd
      · rw [List.mem_singleton.mp hd]
        exact Nat.mod_lt _ (by omega)

theorem encodeDigits_foldl (n : Nat) : ∀ acc : Nat,
    (encodeDigits n).foldl (fun a d => a * 36 + d) acc
      = acc * 36 ^ (encodeDigits n).length + n := by
  induction n using Nat.strong_induction_on with
  | _ n ih =>
    intro acc
    by_cases h : n = 0
    · rw [encodeDigits_def, if_pos h, h]
      simp
    · rw [encodeDigits_def, if_neg h, List.foldl_append, List.length_append,
        ih (n / 36) (Nat.div_lt_self (Nat.pos_of_ne_zero h) (by omega)) acc]
      have hdm : 36 * (n / 36) + n % 36 = n := Nat.div_add_mod n 36
      simp only [List.foldl_cons, List.foldl_nil, List.length_singleton]
      calc (acc * 36 ^ (encodeDigits (n / 36)).length + n / 36) * 36 + n % 36
          = acc * (36 ^ (encodeDigits (n / 36)).length * 36)
              + (36 * (n / 36) + n % 36) := by ring
        _ = acc * 36 ^ ((encodeDigits (n / 36)).length + 1) + n := by
              rw [pow_succ, hdm]

theorem decodeAux_map (ds : List Nat) : ∀ acc : Nat, (∀ d ∈ ds, d < 36) →
    decodeAux (ds.map alphaChar) acc
      = some (ds.foldl (fun a d => a * 36 + d) acc) := by
  induction ds with
  | nil => intro acc _; rfl
  | cons d rest ih =>
    intro acc h
    have hd : d < 36 := h d (List.mem_cons_self d rest)
    simp only [List.map_cons, decodeAux, charIndex_alphaChar d hd,
      List.foldl_cons]
    exact ih (acc * 36 + d) (fun x hx => h x (List.mem_cons_of_mem _ hx))

theorem decodeAux_zeros (k : Nat) (cs : List Char) :
    decodeAux (List.replicate k '0' ++ cs) 0 = decodeAux cs 0 := by
  induction k with
  | zero => rfl
  | succ k ih =>
    have h0 : charIndex '0' = some 0 := by decide
    simp only [List.replicate_succ, List.cons_append, decodeAux, h0]
    simpa using ih

theorem encode_length (n : Nat) : 3 ≤ (encode n).length := by
  by_cases h : n = 0
  · rw [encode, if_pos h]; decide
  · rw [encode, if_neg h]
    show 3 ≤ (zfill 3 ((encodeDigits n).map alphaChar)).length
    rw [zfill, List.length_append, List.length_replicate]
    omega

theorem decodeAux_none (l : List Char) : ∀ acc : Nat,
    (∃ c ∈ l, c ∉ ALPHABET.data) → decodeAux l acc = none := by
  induction l with
  | nil => intro _ h; exact absurd h (by simp)
  | cons a rest ih =>
    intro acc h
    by_cases ha : a ∈ ALPHABET.data
    · obtain ⟨c, hc, hnc⟩ := h
      have hcr : c ∈ rest := by
        rcases List.mem_cons.mp hc with rfl | hcr
        · exact absurd ha hnc
        · exact hcr
      simp only [decodeAux, charIndex_mem a ha]
      exact ih _ ⟨c, hcr, hnc⟩
    · simp only [decodeAux, charIndex_not_mem a ha]

theorem decodeAux_some (l : List Char) : ∀ acc : Nat,
    (∀ c ∈ l, c ∈ ALPHABET.data) → ∃ v, decodeAux l acc = some v := by
  induction l with
  | nil => intro acc _; exact ⟨acc, rfl⟩
  | cons a rest ih =>
    intro acc h
    have ha : a ∈ ALPHABET.data := h a (List.mem_cons_self a rest)
    simp only [decodeAux, charIndex_mem a ha]
    exact ih _ (fun c hc => h c (List.mem_cons_of_mem _ hc))

/-! ## Codec claims -/

/-- C1: for every non-negative integer `n`, `decode (encode n) = n` — the
short-link codec round-trips over the 36-symbol alphabet. -/
theorem decode_encode (n : Nat) : decode (encode n) = some n := by
  by_cases h : n = 0
  · subst h; decide
  · rw [encode, if_neg h]
    show decodeAux (zfill 3 ((encodeDigits n).map alphaChar)) 0 = some n
    rw [zfill, decodeAux_zeros,
      decodeAux_map (encodeDigits n) 0 (encodeDigits_lt n),
      encodeDigits_foldl n 0]
    simp

/-- C8: `encode 0 = "000"`, `encode 35 = "00z"`, `encode 36 = "010"`,
`decode "000" = 0`, and every `encode n` has length at least 3 and is
left-padded with the zero symbol `'0'` in front of the raw base-36
expansion. -/
theorem encode_values_and_padding :
    encode 0 = "000" ∧ encode 35 = "00z" ∧ encode 36 = "010" ∧
    decode "000" = some 0 ∧
    ∀ n : Nat, 3 ≤ (encode n).length ∧
      ∃ k, (encode n).data
        = List.replicate k '0' ++ (encodeDigits n).map alphaChar := by
  refine ⟨rfl,
    by simp [encode, encodeDigits_def, zfill, alphaChar, ALPHABET],
    by simp [encode, encodeDigits_def, zfill, alphaChar, ALPHABET],
    by decide, ?_⟩
  intro n
  refine ⟨encode_length n, ?_⟩
  by_cases h : n = 0
  · subst h
    refine ⟨3, ?_⟩
    rw [encodeDigits_def]
    decide
  · rw [encode, if_neg h]
    exact ⟨3 - ((encodeDigits n).map alphaChar).length, rfl⟩

/-- C9: decoding a string that contains a character outside the alphabet
`0-9a-z` fails (Python raises `ValueError`), and the short-link resolver
folds that failure into a not-found response. -/
theorem decode_invalid (s : String) (h : ∃ c ∈ s.data, c ∉ ALPHABET.data) :
    decode s = none ∧
    ∀ recipes base_url,
      redirect_short_link recipes base_url s = RedirectResult.notFound := by
  have hd : decode s = none := decodeAux_none s.data 0 h
  refine ⟨hd, fun recipes base_url => ?_⟩
  rw [redirect_short_link, hd]

/-- C9 witness: the string `"a!"` contains a foreign character, decodes to
an error and redirects to not-found. -/
theorem decode_invalid_witness :
    (∃ c ∈ ("a!" : String).data, c ∉ ALPHABET.data) ∧
    (decode "a!" = none ∧
      ∀ recipes base_url,
        redirect_short_link recipes base_url "a!" = RedirectResult.notFound) :=
  ⟨by decide, decode_invalid "a!" (by decide)⟩

/-- C10: `decode` performs no length or minimum-width check — it succeeds
on every string of alphabet characters regardless of length, and decodes
the empty string to 0, even though `encode` never produces fewer than 3
characters. -/
theorem decode_no_length_check (s : String)
    (h : ∀ c ∈ s.data, c ∈ ALPHABET.data) :
    (∃ v, decode s = some v) ∧ decode "" = some 0 ∧
    ∀ n : Nat, 3 ≤ (encode n).length :=
  ⟨decodeAux_some s.data 0 h, rfl, encode_length⟩

/-- C10 witness: the one-character string `"7"` (shorter than any encoder
output) decodes successfully. -/
theorem decode_no_length_check_witness :
    (∀ c ∈ ("7" : String).data, c ∈ ALPHABET.data) ∧
    ((∃ v, decode "7" = some v) ∧ decode "" = some 0 ∧
      ∀ n : Nat, 3 ≤ (encode n).length) :=
  ⟨by decide, decode_no_length_check "7" (by decide)⟩

/-! ## RelationRegistry (`mixins.py`)

A relation table (`Favorite`, `ShoppingCart`, `Subscription`) is a list of
`(subject, target)` id pairs; Django's `unique_together` backs
`get_or_create`, which here is a membership test plus conditional append. -/

/-- A relation table: rows of `(subject id, target id)`. -/
abbrev Store := List (Nat × Nat)

/-- Number of rows for one `(subject, target)` pair. -/
def recordCount (s : Store) (u t : Nat) : Nat :=
  (s.filter (fun p => p == (u, t))).length

/-- Method `AddRemoveMixin.add`: `get_or_create`; on an existing row answer
HTTP 400 `'Рецепт уже добавлен'` and leave the table alone, otherwise
insert the one new row and answer HTTP 201. -/
def addRel (s : Store) (u t : Nat) : Nat × Store :=
  if (u, t) ∈ s then (400, s) else (201, s ++ [(u, t)])

/-- Method `AddRemoveMixin.remove`: `filter(...).delete()` removes every matching
row and reports the count; zero deletions answer HTTP 400 `'Рецепта нет'`,
otherwise HTTP 204. -/
def removeRel (s : Store) (u t : Nat) : Nat × Store :=
  let deleted := (s.filter (fun p => p == (u, t))).length
  ((if deleted = 0 then 400 else 204), s.filter (fun p => !(p == (u, t))))

theorem recordCount_append_eq (s : Store) (u t : Nat) :
    recordCount (s ++ [(u, t)]) u t = recordCount s u t + 1 := by
  simp [recordCount, List.filter_append]

theorem recordCount_eq_zero_of_not_mem {s : Store} {u t : Nat}
    (h : (u, t) ∉ s) : recordCount s u t = 0 := by
  simp only [recordCount, List.length_eq_zero, List.filter_eq_nil_iff]
  intro p hp hpb
  have hpe : p = (u, t) := by simpa using hpb
  exact h (hpe ▸ hp)

theorem removeRel_not_mem {s : Store} {u t : Nat} (h : (u, t) ∉ s) :
    removeRel s u t = (400, s) := by
  have hf : s.filter (fun p => p == (u, t)) = [] := by
    rw [List.filter_eq_nil_iff]
    intro p hp hpb
    have hpe : p = (u, t) := by simpa using hpb
    exact h (hpe ▸ hp)
  have hk : s.filter (fun p => !(p == (u, t))) = s := by
    rw [List.filter_eq_self]
    intro p hp
    simp only [Bool.not_eq_true', beq_eq_false_iff_ne, ne_eq]
    rintro rfl
    exact h hp
  simp [removeRel, hf, hk]

/-! ## RelationRegistry claims -/

/-- C2: adding a relation for a pair that already has a record answers
Conflict (HTTP 400) and leaves the table untouched; on a fresh pair it
inserts exactly the one new row and answers Created (HTTP 201); two
successive adds of the same fresh pair answer 201 then 400 and leave the
pair's record count at 1. -/
theorem addRel_contract (s : Store) (u t : Nat) (hfresh : (u, t) ∉ s) :
    (∀ s' : Store, (u, t) ∈ s' → addRel s' u t = (400, s')) ∧
    addRel s u t = (201, s ++ [(u, t)]) ∧
    recordCount (addRel s u t).2 u t = 1 ∧
    (addRel (addRel s u t).2 u t).1 = 400 ∧
    recordCount (addRel (addRel s u t).2 u t).2 u t = 1 := by
  have h1 : addRel s u t = (201, s ++ [(u, t)]) := by
    rw [addRel, if_neg hfresh]
  have hmem : (u, t) ∈ s ++ [(u, t)] := by simp
  have h2 : ∀ s' : Store, (u, t) ∈ s' → addRel s' u t = (400, s') := by
    intro s' hs'
    rw [addRel, if_pos hs']
  have hcount : recordCount (s ++ [(u, t)]) u t = 1 := by
    rw [recordCount_append_eq, recordCount_eq_zero_of_not_mem hfresh]
  refine ⟨h2, h1, ?_, ?_, ?_⟩
  · rw [h1]; exact hcount
  · rw [h1]; rw [h2 _ hmem]
  · rw [h1]; rw [h2 _ hmem]; exact hcount

/-- C2 witness: on the empty table, adding `(1, 2)` twice answers 201 then
400 and leaves one record for the pair. -/
theorem addRel_contract_witness :
    ((1, 2) ∉ ([] : Store)) ∧
    ((∀ s' : Store, (1, 2) ∈ s' → addRel s' 1 2 = (400, s')) ∧
      addRel [] 1 2 = (201, [] ++ [(1, 2)]) ∧
      recordCount (addRel [] 1 2).2 1 2 = 1 ∧
      (addRel (addRel [] 1 2).2 1 2).1 = 400 ∧
      recordCount (addRel (addRel [] 1 2).2 1 2).2 1 2 = 1) :=
  ⟨by decide, addRel_contract [] 1 2 (by decide)⟩

/-- C5: removing a present relation deletes the matching rows and answers
Removed (HTTP 204, rows of other pairs untouched); removing an absent one
answers Conflict (HTTP 400) with the table unchanged. -/
theorem removeRel_contract (s : Store) (u t : Nat) :
    ((u, t) ∈ s →
      (removeRel s u t).1 = 204 ∧
      (removeRel s u t).2 = s.filter (fun p => !(p == (u, t))) ∧
      (u, t) ∉ (removeRel s u t).2) ∧
    ((u, t) ∉ s → removeRel s u t = (400, s)) := by
  constructor
  · intro hmem
    have hne : s.filter (fun p => p == (u, t)) ≠ [] := by
      intro hnil
      have : (u, t) ∈ s.filter (fun p => p == (u, t)) :=
        List.mem_filter.mpr ⟨hmem, by simp⟩
      simp [hnil] at this
    have hlen : (s.filter (fun p => p == (u, t))).length ≠ 0 := by
      simpa [List.length_eq_zero] using hne
    refine ⟨by simp [removeRel, hlen], by simp [removeRel], ?_⟩
    intro hin
    have hin2 : (u, t) ∈ s.filter (fun p => !(p == (u, t))) := hin
    have hb := (List.mem_filter.mp hin2).2
    simp at hb
  · exact fun h => removeRel_not_mem h

/-- C5 witness: removing `(1, 2)` from a table holding it answers 204 and
drops the row; removing the absent `(3, 4)` answers 400 unchanged. -/
theorem removeRel_contract_witness :
    (((1, 2) ∈ ([(1, 2), (5, 6)] : Store)) ∧
      ((removeRel [(1, 2), (5, 6)] 1 2).1 = 204 ∧
        (removeRel [(1, 2), (5, 6)] 1 2).2
          = ([(1, 2), (5, 6)] : Store).filter (fun p => !(p == (1, 2))) ∧
        (1, 2) ∉ (removeRel [(1, 2), (5, 6)] 1 2).2)) ∧
    (((3, 4) ∉ ([(1, 2)] : Store)) ∧
      removeRel [(1, 2)] 3 4 = (400, [(1, 2)])) :=
  ⟨⟨by decide, (removeRel_contract [(1, 2), (5, 6)] 1 2).1 (by decide)⟩,
   ⟨by decide, (removeRel_contract [(1, 2)] 3 4).2 (by decide)⟩⟩

/-! ## Subscription endpoint (`views.py`, `UserViewSet.subscribe`) -/

/-- An operation issued against the subscription relation table. -/
inductive SubOp
  | getOrCreate (u a : Nat)
  | deleteRows (u a : Nat)
deriving DecidableEq

/-- Outcome of a POST to `subscribe`, keeping the three responses of the
source distinct. -/
inductive SubscribeOutcome
  | forbiddenSelf
  | conflictExists
  | created
deriving DecidableEq

/-- HTTP status the source attaches to each `subscribe` outcome:
`forbiddenSelf` is 400 `'Нельзя подписаться на себя'`, `conflictExists`
is 400 `'Вы уже подписаны'`, `created` is 201. -/
def subscribeStatus : SubscribeOutcome → Nat
  | .forbiddenSelf => 400
  | .conflictExists => 400
  | .created => 201

/-- POST branch of `UserViewSet.subscribe`: the `request.user == author`
guard runs first and answers without issuing any operation against the
subscription table; otherwise `get_or_create` runs. The third component
is the trace of relation-storage operations issued. -/
def subscribePost (subs : Store) (reqUser author : Nat) :
    SubscribeOutcome × Store × List SubOp :=
  if reqUser = author then
    (.forbiddenSelf, subs, [])
  else if (reqUser, author) ∈ subs then
    (.conflictExists, subs, [SubOp.getOrCreate reqUser author])
  else
    (.created, subs ++ [(reqUser, author)], [SubOp.getOrCreate reqUser author])

/-- C3: a self-subscription attempt is rejected with the distinct
forbidden outcome (rendered as HTTP 400 per the interface mapping), the
subscription table is untouched, and the trace of relation-storage
operations is empty — the rejection happens before any storage check. -/
theorem subscribe_self_rejected (subs : Store) (u : Nat) :
    subscribePost subs u u = (SubscribeOutcome.forbiddenSelf, subs, []) ∧
    subscribeStatus (subscribePost subs u u).1 = 400 ∧
    (subscribePost subs u u).2.1 = subs ∧
    (subscribePost subs u u).2.2 = ([] : List SubOp) := by
  have h : subscribePost subs u u = (.forbiddenSelf, subs, []) := by
    rw [subscribePost, if_pos rfl]
  exact ⟨h, by rw [h]; rfl, by rw [h], by rw [h]⟩

/-! ## Reachable-state invariant (`models.py` + `mixins.py` + `views.py`) -/

/-- The three relation tables of the application. -/
structure AppState where
  favorites : Store
  cart : Store
  subscriptions : Store
deriving DecidableEq

/-- The relation-mutating endpoints: favorite and cart add/remove through
`AddRemoveMixin`, subscribe/unsubscribe through `UserViewSet.subscribe`. -/
inductive Op
  | addFavorite (u r : Nat)
  | removeFavorite (u r : Nat)
  | addCart (u r : Nat)
  | removeCart (u r : Nat)
  | subscribe (u a : Nat)
  | unsubscribe (u a : Nat)

/-- State transition of one endpoint call. -/
def applyOp (st : AppState) : Op → AppState
  | .addFavorite u r => { st with favorites := (addRel st.favorites u r).2 }
  | .removeFavorite u r => { st with favorites := (removeRel st.favorites u r).2 }
  | .addCart u r => { st with cart := (addRel st.cart u r).2 }
  | .removeCart u r => { st with cart := (removeRel st.cart u r).2 }
  | .subscribe u a =>
      { st with subscriptions := (subscribePost st.subscriptions u a).2.1 }
  | .unsubscribe u a =>
      { st with subscriptions := (removeRel st.subscriptions u a).2 }

/-- Empty database. -/
def initialState : AppState := ⟨[], [], []⟩

/-- Run a sequence of endpoint calls from the empty database. -/
def runOps (ops : List Op) : AppState := ops.foldl applyOp initialState

/-- At most one row per `(subject, target)` pair. -/
def atMostOne (s : Store) : Prop := ∀ u t, recordCount s u t ≤ 1

/-- The data-model invariant: per-pair uniqueness in all three relation
tables and no self-subscription row. -/
def Invariant (st : AppState) : Prop :=
  atMostOne st.favorites ∧ atMostOne st.cart ∧ atMostOne st.subscriptions ∧
  ∀ p ∈ st.subscriptions, p.1 ≠ p.2

theorem recordCount_append_single (s : Store) (u t u' t' : Nat) :
    recordCount (s ++ [(u, t)]) u' t'
      = recordCount s u' t' + (if (u, t) = (u', t') then 1 else 0) := by
  rw [recordCount, recordCount, List.filter_append, List.length_append]
  congr 1
  by_cases he : (u, t) = (u', t') <;> simp [he]

theorem atMostOne_append {s : Store} (h : atMostOne s) {u t : Nat}
    (hm : (u, t) ∉ s) : atMostOne (s ++ [(u, t)]) := by
  intro u' t'
  rw [recordCount_append_single]
  by_cases he : (u, t) = (u', t')
  · rw [if_pos he]
    have h0 : recordCount s u' t' = 0 := by
      refine recordCount_eq_zero_of_not_mem ?_
      rw [← he]; exact hm
    omega
  · rw [if_neg he]
    have := h u' t'
    omega

theorem recordCount_cons (p : Nat × Nat) (s : Store) (u t : Nat) :
    recordCount (p :: s) u t
      = recordCount s u t + (if p = (u, t) then 1 else 0) := by
  rw [recordCount, recordCount, List.filter_cons]
  by_cases he : p = (u, t) <;> simp [he]

theorem recordCount_filter_le (s : Store) (q : Nat × Nat → Bool)
    (u t : Nat) : recordCount (s.filter q) u t ≤ recordCount s u t := by
  induction s with
  | nil => simp [recordCount]
  | cons p rest ih =>
    rw [recordCount_cons, List.filter_cons]
    by_cases hq : q p = true
    · rw [if_pos hq, recordCount_cons]
      by_cases he : p = (u, t)
      · rw [if_pos he]; omega
      · rw [if_neg he]; omega
    · rw [if_neg hq]
      by_cases he : p = (u, t)
      · rw [if_pos he]; omega
      · rw [if_neg he]; omega

theorem atMostOne_addRel {s : Store} (h : atMostOne s) (u t : Nat) :
    atMostOne (addRel s u t).2 := by
  rw [addRel]
  by_cases hm : (u, t) ∈ s
  · rw [if_pos hm]; exact h
  · rw [if_neg hm]; exact atMostOne_append h hm

theorem atMostOne_removeRel {s : Store} (h : atMostOne s) (u t : Nat) :
    atMostOne (removeRel s u t).2 := by
  intro u' t'
  exact le_trans (recordCount_filter_le s _ u' t') (h u' t')

theorem atMostOne_subscribePost {s : Store} (h : atMostOne s)
    (u a : Nat) : atMostOne (subscribePost s u a).2.1 := by
  rw [subscribePost]
  by_cases hself : u = a
  · rw [if_pos hself]; exact h
  · rw [if_neg hself]
    by_cases hm : (u, a) ∈ s
    · rw [if_pos hm]; exact h
    · rw [if_neg hm]; exact atMostOne_append h hm

theorem noSelf_subscribePost {s : Store} (h : ∀ p ∈ s, p.1 ≠ p.2)
    (u a : Nat) : ∀ p ∈ (subscribePost s u a).2.1, p.1 ≠ p.2 := by
  rw [subscribePost]
  by_cases hself : u = a
  · rw [if_pos hself]; exact h
  · rw [if_neg hself]
    by_cases hm : (u, a) ∈ s
    · rw [if_pos hm]; exact h
    · rw [if_neg hm]
      intro p hp
      rcases List.mem_append.mp hp with hp | hp
      · exact h p hp
      · rw [List.mem_singleton.mp hp]
        exact hself

theorem noSelf_removeRel {s : Store} (h : ∀ p ∈ s, p.1 ≠ p.2)
    (u a : Nat) : ∀ p ∈ (removeRel s u a).2, p.1 ≠ p.2 := by
  intro p hp
  exact h p (List.mem_filter.mp hp).1

theorem invariant_applyOp {st : AppState} (h : Invariant st) (op : Op) :
    Invariant (applyOp st op) := by
  obtain ⟨hf, hc, hs, hns⟩ := h
  cases op with
  | addFavorite u r => exact ⟨atMostOne_addRel hf u r, hc, hs, hns⟩
  | removeFavorite u r => exact ⟨atMostOne_removeRel hf u r, hc, hs, hns⟩
  | addCart u r => exact ⟨hf, atMostOne_addRel hc u r, hs, hns⟩
  | removeCart u r => exact ⟨hf, atMostOne_removeRel hc u r, hs, hns⟩
  | subscribe u a =>
      exact ⟨hf, hc, atMostOne_subscribePost hs u a, noSelf_subscribePost hns u a⟩
  | unsubscribe u a =>
      exact ⟨hf, hc, atMostOne_removeRel hs u a, noSelf_removeRel hns u a⟩

theorem invariant_initialState : Invariant initialState := by
  refine ⟨fun u t => ?_, fun u t => ?_, fun u t => ?_, fun p hp => ?_⟩
  · simp [recordCount, initialState]
  · simp [recordCount, initialState]
  · simp [recordCount, initialState]
  · simp [initialState] at hp

theorem invariant_foldl (ops : List Op) :
    ∀ st : AppState, Invariant st → Invariant (ops.foldl applyOp st) := by
  induction ops with
  | nil => exact fun st h => h
  | cons op rest ih =>
    intro st h
    exact ih (applyOp st op) (invariant_applyOp h op)

/-- C7: in every state reachable by any sequence of add/remove/subscribe
operations from the empty database, each relation table holds at most one
record per `(subject, target)` pair and no subscription row is a
self-subscription. -/
theorem invariant_reachable (ops : List Op) : Invariant (runOps ops) :=
  invariant_foldl ops initialState invariant_initialState

/-! ## ShoppingListAggregator (`views.py`, `download_shopping_cart`) -/

/-- Ingredient natural key: `(name, measurement_unit)` — the grouping key
of `.values('ingredient__name', 'ingredient__measurement_unit')`. -/
abbrev IngKey := String × String

/-- A `RecipeIngredient` row as the aggregation query sees it. -/
structure RIRow where
  recipe : Nat
  key : IngKey
  amount : Nat
deriving DecidableEq

/-- The tables the shopping-cart query touches: `RecipeIngredient` rows
and `ShoppingCart` rows `(user, recipe)`. -/
structure CartDB where
  recipeIngredients : List RIRow
  shoppingCart : Store
deriving DecidableEq

/-- Query `RecipeIngredient.objects.filter(recipe__in_shopping_cart__user=user)`:
the `(key, amount)` pairs of every ingredient row whose recipe sits in the
user's cart (the cart's per-pair uniqueness makes the join a filter). -/
def cartRows (db : CartDB) (user : Nat) : List (IngKey × Nat) :=
  (db.recipeIngredients.filter
      (fun row => decide ((user, row.recipe) ∈ db.shoppingCart))).map
    (fun row => (row.key, row.amount))

/-- One step of `GROUP BY`/`Sum`: add `a` into the group of key `k`,
creating the group at the end if absent. -/
def insertAmount : List (IngKey × Nat) → IngKey → Nat → List (IngKey × Nat)
  | [], k, a => [(k, a)]
  | (k', t) :: rest, k, a =>
      if k' = k then (k', t + a) :: rest else (k', t) :: insertAmount rest k a

/-- Aggregation `.values('ingredient__name', 'ingredient__measurement_unit')
.annotate(total=Sum('amount'))`: group the rows by ingredient key and sum
the amounts, keeping first-occurrence order. -/
def groupSum (rows : List (IngKey × Nat)) : List (IngKey × Nat) :=
  rows.foldl (fun acc kv => insertAmount acc kv.1 kv.2) []

/-- Sum of the amounts carried by key `k` in a row list. -/
def sumFor (k : IngKey) (rows : List (IngKey × Nat)) : Nat :=
  ((rows.filter (fun kv => kv.1 == k)).map (fun kv => kv.2)).sum

/-- One report line: `- {name} ({unit}) — {total}`. -/
def shoppingLine (kv : IngKey × Nat) : String :=
  "- " ++ kv.1.1 ++ " (" ++ kv.1.2 ++ ") — " ++ toString kv.2

/-- View `RecipeViewSet.download_shopping_cart`: header then one line per
group, joined with newlines. -/
def download_shopping_cart (db : CartDB) (user : Nat) : String :=
  String.intercalate "\n"
    ("Список покупок:\n" :: (groupSum (cartRows db user)).map shoppingLine)

/-! ## Aggregator lemmas -/

theorem sumFor_nil (k : IngKey) : sumFor k [] = 0 := rfl

theorem sumFor_cons (k : IngKey) (p : IngKey × Nat)
    (rest : List (IngKey × Nat)) :
    sumFor k (p :: rest)
      = (if p.1 = k then p.2 else 0) + sumFor k rest := by
  rw [sumFor, sumFor, List.filter_cons]
  by_cases he : p.1 = k <;> simp [he]

theorem sumFor_insertAmount (acc : List (IngKey × Nat)) (k k' : IngKey)
    (a : Nat) : sumFor k' (insertAmount acc k a)
      = sumFor k' acc + (if k = k' then a else 0) := by
  induction acc with
  | nil =>
    rw [insertAmount, sumFor_cons, sumFor_nil]
    by_cases he : k = k' <;> simp [he]
  | cons p rest ih =>
    obtain ⟨k0, t0⟩ := p
    rw [insertAmount]
    by_cases h0 : k0 = k
    · rw [if_pos h0, sumFor_cons, sumFor_cons]
      subst h0
      by_cases he : k0 = k' <;> simp [he] <;> omega
    · rw [if_neg h0, sumFor_cons, sumFor_cons, ih]
      omega

theorem keys_insertAmount (acc : List (IngKey × Nat)) (k k' : IngKey)
    (a : Nat) : k' ∈ (insertAmount acc k a).map Prod.fst ↔
      k' ∈ acc.map Prod.fst ∨ k' = k := by
  induction acc with
  | nil => simp [insertAmount, eq_comm]
  | cons p rest ih =>
    obtain ⟨k0, t0⟩ := p
    rw [insertAmount]
    by_cases h0 : k0 = k
    · rw [if_pos h0]
      subst h0
      simp only [List.map_cons, List.mem_cons]
      tauto
    · rw [if_neg h0]
      simp only [List.map_cons, List.mem_cons, ih]
      tauto

theorem nodup_insertAmount {acc : List (IngKey × Nat)}
    (h : (acc.map Prod.fst).Nodup) (k : IngKey) (a : Nat) :
    ((insertAmount acc k a).map Prod.fst).Nodup := by
  induction acc with
  | nil => simp [insertAmount]
  | cons p rest ih =>
    obtain ⟨k0, t0⟩ := p
    simp only [List.map_cons, List.nodup_cons] at h
    rw [insertAmount]
    by_cases h0 : k0 = k
    · rw [if_pos h0]
      simp only [List.map_cons, List.nodup_cons]
      exact h
    · rw [if_neg h0]
      simp only [List.map_cons, List.nodup_cons]
      refine ⟨?_, ih h.2⟩
      rw [keys_insertAmount]
      rintro (hm | rfl)
      · exact h.1 hm
      · exact h0 rfl

theorem sumFor_foldl (rows : List (IngKey × Nat)) :
    ∀ acc : List (IngKey × Nat), ∀ k : IngKey,
      sumFor k (rows.foldl (fun a kv => insertAmount a kv.1 kv.2) acc)
        = sumFor k acc + sumFor k rows := by
  induction rows with
  | nil => intro acc k; rw [List.foldl_nil, sumFor_nil]; omega
  | cons p rest ih =>
    intro acc k
    rw [List.foldl_cons, ih, sumFor_insertAmount, sumFor_cons]
    omega

theorem keys_foldl (rows : List (IngKey × Nat)) :
    ∀ acc : List (IngKey × Nat), ∀ k : IngKey,
      (k ∈ (rows.foldl (fun a kv => insertAmount a kv.1 kv.2) acc).map
          Prod.fst ↔
        k ∈ acc.map Prod.fst ∨ k ∈ rows.map Prod.fst) := by
  induction rows with
  | nil => intro acc k; simp
  | cons p rest ih =>
    intro acc k
    rw [List.foldl_cons, ih, keys_insertAmount]
    simp only [List.map_cons, List.mem_cons]
    tauto

theorem nodup_foldl (rows : List (IngKey × Nat)) :
    ∀ acc : List (IngKey × Nat), (acc.map Prod.fst).Nodup →
      ((rows.foldl (fun a kv => insertAmount a kv.1 kv.2) acc).map
        Prod.fst).Nodup := by
  induction rows with
  | nil => exact fun acc h => h
  | cons p rest ih =>
    intro acc h
    rw [List.foldl_cons]
    exact ih _ (nodup_insertAmount h p.1 p.2)

theorem sumFor_eq_zero_of_not_mem {k : IngKey} {l : List (IngKey × Nat)}
    (h : k ∉ l.map Prod.fst) : sumFor k l = 0 := by
  induction l with
  | nil => rfl
  | cons p rest ih =>
    simp only [List.map_cons, List.mem_cons, not_or] at h
    rw [sumFor_cons, if_neg (fun he => h.1 he.symm), ih h.2]

theorem sumFor_eq_of_mem_nodup {k : IngKey} {t : Nat}
    {l : List (IngKey × Nat)} (hn : (l.map Prod.fst).Nodup)
    (hm : (k, t) ∈ l) : sumFor k l = t := by
  induction l with
  | nil => simp at hm
  | cons p rest ih =>
    obtain ⟨k0, t0⟩ := p
    simp only [List.map_cons, List.nodup_cons] at hn
    rcases List.mem_cons.mp hm with he | hm'
    · obtain ⟨rfl, rfl⟩ := Prod.mk.injEq .. ▸ he
      rw [sumFor_cons, if_pos rfl,
        sumFor_eq_zero_of_not_mem (by simpa using hn.1)]
      simp
    · have hne : k0 ≠ k := by
        rintro rfl
        exact hn.1 (List.mem_map.mpr ⟨(k0, t), hm', rfl⟩)
      rw [sumFor_cons, if_neg hne, ih hn.2 hm']
      omega

theorem nodup_groupSum (rows : List (IngKey × Nat)) :
    ((groupSum rows).map Prod.fst).Nodup :=
  nodup_foldl rows [] (by simp)

theorem sumFor_groupSum (rows : List (IngKey × Nat)) (k : IngKey) :
    sumFor k (groupSum rows) = sumFor k rows := by
  rw [groupSum, sumFor_foldl rows [] k, sumFor_nil]
  omega

theorem keys_groupSum (rows : List (IngKey × Nat)) (k : IngKey) :
    k ∈ (groupSum rows).map Prod.fst ↔ k ∈ rows.map Prod.fst := by
  rw [groupSum, keys_foldl rows [] k]
  simp

theorem mem_groupSum (rows : List (IngKey × Nat)) (k : IngKey) (t : Nat) :
    (k, t) ∈ groupSum rows ↔
      k ∈ rows.map Prod.fst ∧ t = sumFor k rows := by
  constructor
  · intro hm
    refine ⟨(keys_groupSum rows k).mp
      (List.mem_map.mpr ⟨(k, t), hm, rfl⟩), ?_⟩
    rw [← sumFor_groupSum rows k,
      sumFor_eq_of_mem_nodup (nodup_groupSum rows) hm]
  · rintro ⟨hk, rfl⟩
    obtain ⟨⟨k', t'⟩, hm, he⟩ :=
      List.mem_map.mp ((keys_groupSum rows k).mpr hk)
    dsimp only at he
    subst he
    have ht : sumFor k' rows = t' := by
      rw [← sumFor_groupSum rows k']
      exact sumFor_eq_of_mem_nodup (nodup_groupSum rows) hm
    rw [ht]
    exact hm

/-- Two recipes in user 1's cart, each holding ingredient `("X", "г")`,
amounts 100 and 50. -/
def exampleDB : CartDB :=
  ⟨[⟨10, ("X", "г"), 100⟩, ⟨11, ("X", "г"), 50⟩], [(1, 10), (1, 11)]⟩

/-- A database with no cart rows at all. -/
def emptyDB : CartDB := ⟨[⟨10, ("X", "г"), 100⟩], []⟩

/-! ## Aggregator claim -/

/-- C4: the shopping-list report is the header followed by one line per
ingredient group; the groups have pairwise distinct keys, and a pair
`(k, t)` is a group exactly when `k` occurs in the cart's ingredient rows
and `t` is the sum of the amounts carried by `k`; an empty cart yields
the bare header; the concrete 100 + 50 cart aggregates to 150. -/
theorem shopping_cart_aggregation :
    (∀ (db : CartDB) (user : Nat),
      download_shopping_cart db user = String.intercalate "\n"
        ("Список покупок:\n"
          :: (groupSum (cartRows db user)).map shoppingLine) ∧
      ((groupSum (cartRows db user)).map Prod.fst).Nodup ∧
      (∀ (k : IngKey) (t : Nat), (k, t) ∈ groupSum (cartRows db user) ↔
        (k ∈ (cartRows db user).map Prod.fst ∧
          t = sumFor k (cartRows db user))) ∧
      (cartRows db user = [] →
        download_shopping_cart db user = "Список покупок:\n")) ∧
    groupSum (cartRows exampleDB 1) = [(("X", "г"), 150)] ∧
    download_shopping_cart emptyDB 1 = "Список покупок:\n" := by
  refine ⟨fun db user => ⟨rfl, nodup_groupSum _,
    fun k t => mem_groupSum _ k t, fun he => ?_⟩, by decide, by decide⟩
  rw [download_shopping_cart, he]
  rfl

/-- C4 witness: a database whose cart is empty yields the bare header
line. -/
theorem shopping_cart_aggregation_witness :
    cartRows emptyDB 1 = [] ∧
    download_shopping_cart emptyDB 1 = "Список покупок:\n" :=
  ⟨by decide,
    (shopping_cart_aggregation.1 emptyDB 1).2.2.2 (by decide)⟩

/-! ## Recipe update (`serializers.py`, `RecipeSerializer.update`) -/

/-- A `RecipeIngredient` association row as the serializer writes it:
`(recipe id, ingredient id, amount)`. -/
structure AssocRow where
  recipe : Nat
  ingredient_id : Nat
  amount : Nat
deriving DecidableEq

/-- Ingredient part of `RecipeSerializer.update`: when `ingredients_data`
is supplied, `instance.recipeingredient_set.all().delete()` then
`bulk_create` of the new `(id, amount)` items; when absent (`None`), the
associations are left alone. -/
def updateIngredients (assocs : List AssocRow) (recipe : Nat)
    (items : Option (List (Nat × Nat))) : List AssocRow :=
  match items with
  | none => assocs
  | some l =>
      assocs.filter (fun row => !(row.recipe == recipe))
        ++ l.map (fun it => AssocRow.mk recipe it.1 it.2)

/-- C6: an update supplying a new ingredient list fully replaces the
recipe's associations — afterwards the rows of that recipe are exactly
the new items, rows of other recipes are untouched, and an old row of the
recipe survives only by being in the new input set. -/
theorem update_replaces_ingredients (assocs : List AssocRow) (recipe : Nat)
    (items : List (Nat × Nat)) :
    (updateIngredients assocs recipe (some items)).filter
        (fun row => row.recipe == recipe)
      = items.map (fun it => AssocRow.mk recipe it.1 it.2) ∧
    (updateIngredients assocs recipe (some items)).filter
        (fun row => !(row.recipe == recipe))
      = assocs.filter (fun row => !(row.recipe == recipe)) ∧
    ∀ row ∈ assocs, row.recipe = recipe →
      (row ∈ updateIngredients assocs recipe (some items) ↔
        row ∈ items.map (fun it => AssocRow.mk recipe it.1 it.2)) := by
  have hclear : (assocs.filter (fun row => !(row.recipe == recipe))).filter
      (fun row => row.recipe == recipe) = [] := by
    rw [List.filter_eq_nil_iff]
    intro row hrow
    have := (List.mem_filter.mp hrow).2
    simp only [Bool.not_eq_true', beq_eq_false_iff_ne, ne_eq] at this
    simp [this]
  have hnew : (items.map (fun it => AssocRow.mk recipe it.1 it.2)).filter
      (fun row => row.recipe == recipe)
      = items.map (fun it => AssocRow.mk recipe it.1 it.2) := by
    rw [List.filter_eq_self]
    intro row hrow
    obtain ⟨it, _, rfl⟩ := List.mem_map.mp hrow
    simp
  have hnewNone : (items.map (fun it => AssocRow.mk recipe it.1 it.2)).filter
      (fun row => !(row.recipe == recipe)) = [] := by
    rw [List.filter_eq_nil_iff]
    intro row hrow
    obtain ⟨it, _, rfl⟩ := List.mem_map.mp hrow
    simp
  have hidem : (assocs.filter (fun row => !(row.recipe == recipe))).filter
      (fun row => !(row.recipe == recipe))
      = assocs.filter (fun row => !(row.recipe == recipe)) := by
    rw [List.filter_eq_self]
    intro row hrow
    exact (List.mem_filter.mp hrow).2
  refine ⟨?_, ?_, ?_⟩
  · rw [updateIngredients, List.filter_append, hclear, hnew,
      List.nil_append]
  · rw [updateIngredients, List.filter_append, hidem, hnewNone,
      List.append_nil]
  · intro row _ hrec
    rw [updateIngredients]
    constructor
    · intro hin
      rcases List.mem_append.mp hin with hin | hin
      · have := (List.mem_filter.mp hin).2
        simp [hrec] at this
      · exact hin
    · exact fun hin => List.mem_append.mpr (Or.inr hin)

/-- C6 witness: updating a recipe from ingredient rows `{A: 2}` (id 7) to
`{B: 3}` (id 8) leaves exactly `{B: 3}`. -/
theorem update_replaces_ingredients_witness :
    ((updateIngredients [AssocRow.mk 1 7 2] 1 (some [(8, 3)])).filter
        (fun row => row.recipe == 1)
      = [(8, 3)].map (fun it => AssocRow.mk 1 it.1 it.2) ∧
      (updateIngredients [AssocRow.mk 1 7 2] 1 (some [(8, 3)])).filter
        (fun row => !(row.recipe == 1))
      = [AssocRow.mk 1 7 2].filter (fun row => !(row.recipe == 1)) ∧
      ∀ row ∈ [AssocRow.mk 1 7 2], row.recipe = 1 →
        (row ∈ updateIngredients [AssocRow.mk 1 7 2] 1 (some [(8, 3)]) ↔
          row ∈ [(8, 3)].map (fun it => AssocRow.mk 1 it.1 it.2))) ∧
    updateIngredients [AssocRow.mk 1 7 2] 1 (some [(8, 3)])
      = [AssocRow.mk 1 8 3] :=
  ⟨update_replaces_ingredients [AssocRow.mk 1 7 2] 1 [(8, 3)], by decide⟩

end Foodgram
